import Mathlib

/-!
Verification development for the predicate-gated state-transition engine
(`engine/system.py`).

The Python module is shallowly embedded: Python `dict`s become association
lists with first-match lookup and in-place replacement (`dget` / `dset` /
`dpop`), Python sets of state names become lists of distinct names, `None`
becomes `Option.none`, raising `ValueError` becomes returning an error
message alongside the unchanged state, and the `broker.emit` notification
calls — pure outward signalling that never touches engine state — have no
state-level counterpart.  Fact values (`FACT_VALUE = Union[str, bool, int,
enum.Enum]`) become the closed inductive `FactValue`, and Python's `==` on
such values becomes `pyEq`, which reproduces Python's numeric
identification of `bool` with `int` (`True == 1`, `False == 0`) and
otherwise compares only within a kind.
-/

/-- Scalar fact values: the closed kind set {text, boolean, integer, symbol}
mirroring `FACT_VALUE = Union[str, bool, int, enum.Enum]`.  A plain
`enum.Enum` member is identified by its name and compares only with
itself. -/
inductive FactValue where
  | text (s : String)
  | boolean (b : Bool)
  | integer (n : Int)
  | symbol (member : String)
deriving DecidableEq, Repr

/-- Python `==` restricted to `FACT_VALUE` operands.  Python's `bool` is a
subclass of `int`, so `True == 1` and `False == 0`; every other cross-kind
comparison is unequal, and same-kind comparison is structural equality. -/
def pyEq : FactValue → FactValue → Bool
  | .text a, .text b => a == b
  | .boolean a, .boolean b => a == b
  | .boolean a, .integer n => (if a then (1 : Int) else 0) == n
  | .integer n, .boolean b => n == (if b then (1 : Int) else 0)
  | .integer m, .integer n => m == n
  | .symbol a, .symbol b => a == b
  | _, _ => false

/-- Association-list lookup, first match: Python `d.get(k)` / `k in d`. -/
def dget {κ α : Type} [DecidableEq κ] (k : κ) : List (κ × α) → Option α
  | [] => none
  | p :: rest => if p.1 = k then some p.2 else dget k rest

/-- Association-list write: Python `d[k] = v` (replace in place, else append). -/
def dset {κ α : Type} [DecidableEq κ] (k : κ) (v : α) : List (κ × α) → List (κ × α)
  | [] => [(k, v)]
  | p :: rest => if p.1 = k then (k, v) :: rest else p :: dset k v rest

/-- Association-list removal: Python `d.pop(k)`. -/
def dpop {κ α : Type} [DecidableEq κ] (k : κ) : List (κ × α) → List (κ × α)
  | [] => []
  | p :: rest => if p.1 = k then rest else p :: dpop k rest

/-- An edge between two state nodes (`Edge` dataclass). -/
structure Edge where
  priority : Int
  source : String
  target : String
  requires : List (String × FactValue)
deriving DecidableEq, Repr

/-- Python string comparison: lexicographic on Unicode code points, with a
strict prefix smaller than any extension. -/
def strLtb : List Char → List Char → Bool
  | [], [] => false
  | [], _ :: _ => true
  | _ :: _, [] => false
  | a :: as, b :: bs =>
    if a.toNat < b.toNat then true
    else if b.toNat < a.toNat then false
    else strLtb as bs

/-- Python `a < b` on strings. -/
def pyStrLt (a b : String) : Prop := strLtb a.data b.data = true

/-- Python `a <= b` on strings, i.e. not `b < a`. -/
def pyStrLe (a b : String) : Prop := strLtb b.data a.data = false

instance (a b : String) : Decidable (pyStrLt a b) := by
  unfold pyStrLt
  infer_instance

instance (a b : String) : Decidable (pyStrLe a b) := by
  unfold pyStrLe
  infer_instance

/-- The ordering used by `_compile`'s `transitions.sort(key=lambda t:
(-t.priority, t.target))`: priority descending, then target ascending. -/
def edgeLE (a b : Edge) : Prop :=
  b.priority < a.priority ∨ (a.priority = b.priority ∧ pyStrLe a.target b.target)

instance : DecidableRel edgeLE := fun a b =>
  @instDecidableOr _ _ (Int.decLt _ _)
    (@instDecidableAnd _ _ (Int.instDecidableEq _ _) (instDecidableEqBool _ _))

/-- Declarative definition of a lifecycle state machine
(`LifetimeDefinition.__init__` fields; `predicates or {}` defaulting is
absorbed by resolving an absent entry to the empty requirement list).
`states` and `terminal` model Python sets, `transitions` the source → target
set mapping, `predicates` the `(source, target) → requirements` mapping. -/
structure LifetimeDefinition where
  name : String
  states : List String
  initial : String
  terminal : List String
  transitions : List (String × List String)
  predicates : List ((String × String) × List (String × FactValue))
deriving DecidableEq, Repr

/-- The edge `_compile` builds for one `(source, target)` pair: priority 0,
requirements looked up in `predicates` with default `{}`. -/
def compiledEdge (d : LifetimeDefinition) (source target : String) : Edge :=
  { priority := 0
    source := source
    target := target
    requires := (dget (source, target) d.predicates).getD [] }

/-- Compiled edge list for one state (`_compile` + `transitions_from`):
every target of the state gets an edge, and the list is sorted by
`(-priority, target)`.  A state absent from `transitions` has no compiled
entry, so the lookup yields the empty list. -/
def LifetimeDefinition.transitions_from (d : LifetimeDefinition) (state : String) : List Edge :=
  match dget state d.transitions with
  | none => []
  | some targets => List.insertionSort edgeLE (targets.map (compiledEdge d state))

/-- The two recognised predicate scopes (`PredicateScope` enum). -/
inductive PredicateScope where
  | STEP
  | RUN
deriving DecidableEq, Repr

/-- A runtime argument passed where a `PredicateScope` is expected.  Python
is dynamically typed, so a caller may pass any object; `invalid` captures a
non-member by its textual representation. -/
inductive ScopeArg where
  | member (s : PredicateScope)
  | invalid (repr : String)
deriving DecidableEq, Repr

/-- Scoped fact cache for a single run (`PredicateStore`): the ephemeral
`step` mapping and the persistent `run` mapping. -/
structure PredicateStore where
  step : List (String × FactValue)
  run : List (String × FactValue)
deriving DecidableEq, Repr

/-- `PredicateStore.report`: write into the scope's mapping, or raise
`ValueError` on an unrecognised scope.  The raise is modelled as returning
the error message together with the untouched store — the Python `raise`
happens before any assignment. -/
def PredicateStore.report (ps : PredicateStore) (name : String) (value : FactValue)
    (scope : ScopeArg) : Option String × PredicateStore :=
  match scope with
  | .member .STEP => (none, { ps with step := dset name value ps.step })
  | .member .RUN => (none, { ps with run := dset name value ps.run })
  | .invalid r => (some ("Unknown predicate scope: " ++ r), ps)

/-- `PredicateStore.resolve`: step-scope value if present, else run-scope
value, else absent. -/
def PredicateStore.resolve (ps : PredicateStore) (name : String) : Option FactValue :=
  match dget name ps.step with
  | some v => some v
  | none => dget name ps.run

/-- `PredicateStore.clear_step`: empty the ephemeral mapping. -/
def PredicateStore.clear_step (ps : PredicateStore) : PredicateStore :=
  { ps with step := [] }

/-- Runtime instance of a lifetime (`LifetimeRun`).  The random `uuid4`
identifier lives outside the run in this model: the engine's run dictionary
is keyed by an opaque `Nat` chosen fresh by the caller of `start`. -/
structure LifetimeRun where
  lifetime : LifetimeDefinition
  state : String
  predicates : PredicateStore
  finished : Bool
deriving DecidableEq, Repr

/-- `LifetimeRun.__init__`: start at the definition's initial state with an
empty store and `finished = False`. -/
def LifetimeRun.init (lifetime : LifetimeDefinition) : LifetimeRun :=
  { lifetime := lifetime
    state := lifetime.initial
    predicates := { step := [], run := [] }
    finished := false }

/-- `LifetimeRun.report_predicate`: delegate to the store.  When the store
raises (invalid scope), the run is left unchanged — the exception
propagates past this frame without mutating anything, which is exactly the
second component of the report pair. -/
def LifetimeRun.report_predicate (run : LifetimeRun) (name : String) (value : FactValue)
    (scope : ScopeArg) : LifetimeRun :=
  { run with predicates := (run.predicates.report name value scope).2 }

/-- `LifetimeRun.is_terminal`: membership of the current state in the
definition's terminal set. -/
def LifetimeRun.is_terminal (run : LifetimeRun) : Bool :=
  run.lifetime.terminal.contains run.state

/-- Result of one engine step (`StepResult` enum). -/
inductive StepResult where
  | ADVANCED
  | STALLED
  | FINISHED
deriving DecidableEq, Repr

/-- Why a transition was blocked (`TransitionBlocker` dataclass). -/
structure TransitionBlocker where
  transition : Edge
  missing : List (String × FactValue)
  mismatched : List (String × (Option FactValue × FactValue))
deriving DecidableEq, Repr

/-- The coordinator's run collection (`Engine._runs`), keyed by run id. -/
structure Engine where
  runs : List (Nat × LifetimeRun)
deriving DecidableEq, Repr

/-- `Engine.start`: create a run, register it under a fresh id, return it. -/
def Engine.start (e : Engine) (id : Nat) (lifetime : LifetimeDefinition) :
    LifetimeRun × Engine :=
  let run := LifetimeRun.init lifetime
  (run, { runs := dset id run e.runs })

/-- `Engine._predicates_satisfied`: every required fact must resolve to a
value Python-equal to the required one; an absent fact (`None`) never
equals a `FACT_VALUE`. -/
def Engine.predicates_satisfied (run : LifetimeRun) (transition : Edge) : Bool :=
  transition.requires.all fun nv =>
    match run.predicates.resolve nv.1 with
    | some actual => pyEq actual nv.2
    | none => false

/-- `Engine._apply_transition`: move to the target, clear the step scope,
and mark finished when the new state is terminal. -/
def Engine.apply_transition (run : LifetimeRun) (transition : Edge) : LifetimeRun :=
  let moved : LifetimeRun :=
    { run with state := transition.target, predicates := run.predicates.clear_step }
  if moved.is_terminal then { moved with finished := true } else moved

/-- `Engine.step`.  The `broker.emit` calls signal outward and never touch
run or engine state, so the model returns only the result and the (possibly
mutated) run.  The Python `for`-loop with early `return` over the compiled
edges is the first satisfied edge, i.e. `find?`. -/
def Engine.step (run : LifetimeRun) : StepResult × LifetimeRun :=
  if run.finished then (.FINISHED, run)
  else if run.is_terminal then (.FINISHED, { run with finished := true })
  else
    match (run.lifetime.transitions_from run.state).find? (Engine.predicates_satisfied run) with
    | some t => (.ADVANCED, Engine.apply_transition run t)
    | none => (.STALLED, run)

/-- Body of `Engine.step_all`'s loop over the snapshot
`list(self._runs.items())`: step the snapshotted run (the in-place mutation
of the shared run object is the `dset`), record the result, and pop the
entry when the result is FINISHED. -/
def Engine.stepAllAux : List (Nat × LifetimeRun) → Engine → List (Nat × StepResult) × Engine
  | [], e => ([], e)
  | (id, run) :: rest, e =>
    let sr := Engine.step run
    let e1 : Engine := { runs := dset id sr.2 e.runs }
    let e2 : Engine := if sr.1 = .FINISHED then { runs := dpop id e1.runs } else e1
    let tail := Engine.stepAllAux rest e2
    ((id, sr.1) :: tail.1, tail.2)

/-- `Engine.step_all`: snapshot the collection at call start, step every
snapshotted run once, and return the per-run results. -/
def Engine.step_all (e : Engine) : List (Nat × StepResult) × Engine :=
  Engine.stepAllAux e.runs e

/-- Inner loop of `why_stalled` over one edge's `requires` items, in order:
an absent fact goes to `missing` (mapped to the required value), a present
but unequal fact goes to `mismatched` (mapped to the `(actual, required)`
pair). -/
def classifyRequires (ps : PredicateStore) :
    List (String × FactValue) →
      List (String × FactValue) × List (String × (Option FactValue × FactValue))
  | [] => ([], [])
  | nv :: rest =>
    match ps.resolve nv.1 with
    | none =>
      ((nv.1, nv.2) :: (classifyRequires ps rest).1, (classifyRequires ps rest).2)
    | some actual =>
      if pyEq actual nv.2 then classifyRequires ps rest
      else ((classifyRequires ps rest).1,
        (nv.1, (some actual, nv.2)) :: (classifyRequires ps rest).2)

/-- Body of `why_stalled`'s outer loop for one edge: collect the missing
and mismatched required facts and keep the blocker only when at least one
of the two is non-empty. -/
def blockerFor (ps : PredicateStore) (transition : Edge) : Option TransitionBlocker :=
  if (classifyRequires ps transition.requires).1.isEmpty &&
      (classifyRequires ps transition.requires).2.isEmpty then none
  else some { transition := transition
              missing := (classifyRequires ps transition.requires).1
              mismatched := (classifyRequires ps transition.requires).2 }

/-- `Engine.why_stalled`: one blocker per compiled edge of the current
state that has at least one missing or mismatched required fact; fully
satisfied edges are omitted.  It reads the run, emits nothing, and returns
a freshly built list — a pure diagnostic. -/
def Engine.why_stalled (run : LifetimeRun) : List TransitionBlocker :=
  (run.lifetime.transitions_from run.state).filterMap (blockerFor run.predicates)

/-- Iterated stepping: apply `Engine.step` `k` times, keeping the run. -/
def stepIter : Nat → LifetimeRun → LifetimeRun
  | 0, run => run
  | k + 1, run => stepIter k (Engine.step run).2

/-- Every run the engine can produce for a definition `d`: runs created by
`start` and then mutated only through `Engine.step` and fact reporting
(with any scope argument, valid or not). -/
inductive Reaches (d : LifetimeDefinition) : LifetimeRun → Prop where
  | start : Reaches d (LifetimeRun.init d)
  | step {r : LifetimeRun} : Reaches d r → Reaches d (Engine.step r).2
  | report {r : LifetimeRun} (name : String) (value : FactValue) (scope : ScopeArg) :
      Reaches d r → Reaches d (r.report_predicate name value scope)

/-- Structural validity of a definition: the initial state and every
transition target belong to `states`.  The Python compiler never checks
this (the spec's open gap). -/
def structurally_valid (d : LifetimeDefinition) : Prop :=
  d.initial ∈ d.states ∧ ∀ p ∈ d.transitions, ∀ t ∈ p.2, t ∈ d.states

instance (d : LifetimeDefinition) : Decidable (structurally_valid d) := by
  unfold structurally_valid
  infer_instance

/-! ### Concrete definitions used to instantiate the claims -/

/-- The end-to-end definition of the specification's section 8: states
{draft, reviewing, approved, rejected}, initial draft, terminal
{approved, rejected}, an unconditional edge draft→reviewing, plus
reviewing→approved requiring quality_ok=true and review_ok=true, and
reviewing→rejected requiring review_ok=false. -/
def reviewDef : LifetimeDefinition :=
  { name := "review"
    states := ["draft", "reviewing", "approved", "rejected"]
    initial := "draft"
    terminal := ["approved", "rejected"]
    transitions := [("draft", ["reviewing"]), ("reviewing", ["approved", "rejected"])]
    predicates :=
      [ (("reviewing", "approved"),
          [("quality_ok", FactValue.boolean true), ("review_ok", FactValue.boolean true)])
      , (("reviewing", "rejected"), [("review_ok", FactValue.boolean false)]) ] }

/-- A run of `reviewDef` sitting at `reviewing`, not finished, whose fact
store holds exactly `review_ok=false` at RUN scope and nothing at STEP
scope. -/
def reviewingRejectRun : LifetimeRun :=
  { lifetime := reviewDef
    state := "reviewing"
    predicates := { step := [], run := [("review_ok", FactValue.boolean false)] }
    finished := false }

/-- A finished run with non-empty fact scopes, used to instantiate C4. -/
def finishedRun : LifetimeRun :=
  { lifetime := reviewDef
    state := "approved"
    predicates := { step := [("a", FactValue.integer 3)], run := [("b", FactValue.text "v")] }
    finished := true }

/-- A definition whose declared initial state is not a member of its state
set — accepted without complaint by the compiler. -/
def badDef : LifetimeDefinition :=
  { name := "bad"
    states := ["s"]
    initial := "x"
    terminal := []
    transitions := []
    predicates := [] }

/-- A two-state definition with a single unconditional edge. -/
def twoStateDef : LifetimeDefinition :=
  { name := "two"
    states := ["a", "b"]
    initial := "a"
    terminal := []
    transitions := [("a", ["b"])]
    predicates := [] }

/-- A run of `twoStateDef` whose store was built by reporting `x` at RUN
scope (integer 1) and then `x` at STEP scope (integer 2). -/
def precedenceRun : LifetimeRun :=
  { lifetime := twoStateDef
    state := "a"
    predicates :=
      ((PredicateStore.report { step := [], run := [] } "x" (FactValue.integer 1)
          (ScopeArg.member PredicateScope.RUN)).2.report "x" (FactValue.integer 2)
        (ScopeArg.member PredicateScope.STEP)).2
    finished := false }

/-- A definition with one edge requiring `flag=true` (a boolean). -/
def coercionDef : LifetimeDefinition :=
  { name := "coercion"
    states := ["s", "t"]
    initial := "s"
    terminal := []
    transitions := [("s", ["t"])]
    predicates := [(("s", "t"), [("flag", FactValue.boolean true)])] }

/-- The compiled edge of `coercionDef`. -/
def coercionEdge : Edge := compiledEdge coercionDef "s" "t"

/-- A run of `coercionDef` that reported the integer 1 — not a boolean —
for the fact `flag`. -/
def coercionRun : LifetimeRun :=
  { lifetime := coercionDef
    state := "s"
    predicates := { step := [], run := [("flag", FactValue.integer 1)] }
    finished := false }

/-- A definition with one edge requiring `ok=true` (a boolean). -/
def mismatchDef : LifetimeDefinition :=
  { name := "mismatch"
    states := ["s", "t"]
    initial := "s"
    terminal := []
    transitions := [("s", ["t"])]
    predicates := [(("s", "t"), [("ok", FactValue.boolean true)])] }

/-- A run of `mismatchDef` that reported the text "yes" — a kind mismatch
against the required boolean — for the fact `ok`. -/
def mismatchRun : LifetimeRun :=
  { lifetime := mismatchDef
    state := "s"
    predicates := { step := [], run := [("ok", FactValue.text "yes")] }
    finished := false }

/-- The specification's stall-diagnosis example: one edge requiring
`a=true` and `b=false`. -/
def stallDef : LifetimeDefinition :=
  { name := "stall"
    states := ["s", "t"]
    initial := "s"
    terminal := []
    transitions := [("s", ["t"])]
    predicates := [(("s", "t"), [("a", FactValue.boolean true), ("b", FactValue.boolean false)])] }

/-- A run of `stallDef` where only `a=true` has been reported. -/
def stallRun : LifetimeRun :=
  { lifetime := stallDef
    state := "s"
    predicates := { step := [], run := [("a", FactValue.boolean true)] }
    finished := false }

/-- A definition with two unconditional same-priority edges out of `s`,
written in the order B before A. -/
def tieDef : LifetimeDefinition :=
  { name := "tie"
    states := ["s", "A", "B"]
    initial := "s"
    terminal := []
    transitions := [("s", ["B", "A"])]
    predicates := [] }

/-- A fresh run of `tieDef`, sitting at `s`. -/
def tieRun : LifetimeRun := LifetimeRun.init tieDef

/-- An engine holding one already-finished run and one stalling run. -/
def pairEngine : Engine := { runs := [(1, finishedRun), (2, stallRun)] }

/-! ### Order lemmas for the compile-time edge sort -/

theorem strLtb_asymm : ∀ as bs, strLtb as bs = true → strLtb bs as = false := by
  intro as
  induction as with
  | nil => intro bs h; cases bs with
    | nil => simp [strLtb] at h
    | cons b bs => simp [strLtb]
  | cons a as ih =>
    intro bs h
    cases bs with
    | nil => simp [strLtb] at h
    | cons b bs =>
      simp only [strLtb] at h ⊢
      by_cases h1 : a.toNat < b.toNat
      · simp only [if_pos h1] at h
        have h2 : ¬ b.toNat < a.toNat := by omega
        simp [if_neg h2, if_pos h1]
      · by_cases h2 : b.toNat < a.toNat
        · simp [if_neg h1, if_pos h2] at h
        · simp only [if_neg h1, if_neg h2] at h ⊢
          exact ih bs h

theorem strLtb_trans :
    ∀ as bs cs, strLtb as bs = true → strLtb bs cs = true → strLtb as cs = true := by
  intro as
  induction as with
  | nil =>
    intro bs cs h1 h2
    cases bs with
    | nil => simp [strLtb] at h1
    | cons b bs =>
      cases cs with
      | nil => simp [strLtb] at h2
      | cons c cs => simp [strLtb]
  | cons a as ih =>
    intro bs cs h1 h2
    cases bs with
    | nil => simp [strLtb] at h1
    | cons b bs =>
      cases cs with
      | nil => simp [strLtb] at h2
      | cons c cs =>
        simp only [strLtb] at h1 h2 ⊢
        by_cases hab : a.toNat < b.toNat
        · by_cases hbc : b.toNat < c.toNat
          · have : a.toNat < c.toNat := by omega
            simp [if_pos this]
          · by_cases hcb : c.toNat < b.toNat
            · simp [if_neg hbc, if_pos hcb] at h2
            · have : a.toNat < c.toNat := by omega
              simp [if_pos this]
        · by_cases hba : b.toNat < a.toNat
          · simp [if_neg hab, if_pos hba] at h1
          · simp only [if_neg hab, if_neg hba] at h1
            by_cases hbc : b.toNat < c.toNat
            · have : a.toNat < c.toNat := by omega
              simp [if_pos this]
            · by_cases hcb : c.toNat < b.toNat
              · simp [if_neg hbc, if_pos hcb] at h2
              · have hac : ¬ a.toNat < c.toNat := by omega
                have hca : ¬ c.toNat < a.toNat := by omega
                simp only [if_neg hbc, if_neg hcb] at h2
                simp only [if_neg hac, if_neg hca]
                exact ih bs cs h1 h2

theorem strLtb_trichotomy :
    ∀ as bs, strLtb as bs = true ∨ strLtb bs as = true ∨ as = bs := by
  intro as
  induction as with
  | nil => intro bs; cases bs with
    | nil => right; right; rfl
    | cons b bs => left; simp [strLtb]
  | cons a as ih =>
    intro bs
    cases bs with
    | nil => right; left; simp [strLtb]
    | cons b bs =>
      by_cases h1 : a.toNat < b.toNat
      · left; simp [strLtb, if_pos h1]
      · by_cases h2 : b.toNat < a.toNat
        · right; left; simp [strLtb, if_pos h2]
        · have heq : a = b := by
            have : a.toNat = b.toNat := by omega
            exact Char.eq_of_val_eq (UInt32.toNat.inj this)
          rcases ih bs with h | h | h
          · left; simp [strLtb, if_neg h1, if_neg h2, h]
          · right; left
            subst heq
            simp [strLtb, if_neg h1, h]
          · right; right; rw [heq, h]

theorem pyStrLe_total (a b : String) : pyStrLe a b ∨ pyStrLe b a := by
  unfold pyStrLe
  cases hb : strLtb b.data a.data with
  | false => exact Or.inl rfl
  | true => exact Or.inr (strLtb_asymm _ _ hb)

theorem pyStrLe_trans {a b c : String} (h1 : pyStrLe a b) (h2 : pyStrLe b c) :
    pyStrLe a c := by
  unfold pyStrLe at h1 h2 ⊢
  cases hc : strLtb c.data a.data with
  | false => rfl
  | true =>
    exfalso
    rcases strLtb_trichotomy a.data b.data with h | h | h
    · have := strLtb_trans _ _ _ hc h
      rw [this] at h2
      exact Bool.noConfusion h2
    · rw [h] at h1; exact Bool.noConfusion h1
    · rw [h] at hc; rw [hc] at h2; exact Bool.noConfusion h2

theorem edgeLE_isTotal : IsTotal Edge edgeLE := by
  constructor
  intro a b
  rcases lt_trichotomy a.priority b.priority with h | h | h
  · exact Or.inr (Or.inl h)
  · rcases pyStrLe_total a.target b.target with ht | ht
    · exact Or.inl (Or.inr ⟨h, ht⟩)
    · exact Or.inr (Or.inr ⟨h.symm, ht⟩)
  · exact Or.inl (Or.inl h)

theorem edgeLE_isTrans : IsTrans Edge edgeLE := by
  constructor
  intro a b c hab hbc
  rcases hab with h1 | ⟨h1, t1⟩
  · rcases hbc with h2 | ⟨h2, _⟩
    · exact Or.inl (h2.trans h1)
    · exact Or.inl (h2 ▸ h1)
  · rcases hbc with h2 | ⟨h2, t2⟩
    · exact Or.inl (h1 ▸ h2)
    · exact Or.inr ⟨h1.trans h2, pyStrLe_trans t1 t2⟩

/-! ### Supporting lemmas about the embedded dictionaries and stepping -/

theorem dget_dset_self {κ α : Type} [DecidableEq κ] (k : κ) (v : α) :
    ∀ l : List (κ × α), dget k (dset k v l) = some v := by
  intro l
  induction l with
  | nil => simp [dget, dset]
  | cons p rest ih =>
    by_cases h : p.1 = k
    · simp [dget, dset, h]
    · simp [dget, dset, h, ih]

theorem mem_of_dget {κ α : Type} [DecidableEq κ] {k : κ} {v : α} :
    ∀ {l : List (κ × α)}, dget k l = some v → (k, v) ∈ l := by
  intro l
  induction l with
  | nil => intro h; simp [dget] at h
  | cons p rest ih =>
    intro h
    by_cases hp : p.1 = k
    · simp only [dget, if_pos hp] at h
      obtain ⟨p1, p2⟩ := p
      simp only at hp
      subst hp
      injection h with h
      subst h
      exact List.Mem.head _
    · simp only [dget, if_neg hp] at h
      exact List.mem_cons_of_mem _ (ih h)

theorem mem_transitions_from {d : LifetimeDefinition} {s : String} {e : Edge} :
    e ∈ d.transitions_from s →
      ∃ targets, dget s d.transitions = some targets ∧
        ∃ t ∈ targets, e = compiledEdge d s t := by
  intro h
  unfold LifetimeDefinition.transitions_from at h
  cases hd : dget s d.transitions with
  | none => rw [hd] at h; simp at h
  | some targets =>
    rw [hd] at h
    refine ⟨targets, rfl, ?_⟩
    have hmem := (List.perm_insertionSort edgeLE (targets.map (compiledEdge d s))).mem_iff.mp h
    obtain ⟨t, ht, he⟩ := List.mem_map.mp hmem
    exact ⟨t, ht, he.symm⟩

theorem apply_transition_state (run : LifetimeRun) (e : Edge) :
    (Engine.apply_transition run e).state = e.target := by
  unfold Engine.apply_transition
  by_cases hterm : (({ run with
      state := e.target,
      predicates := run.predicates.clear_step } : LifetimeRun)).is_terminal
  · simp only [if_pos hterm]
  · simp only [if_neg hterm]

theorem apply_transition_predicates (run : LifetimeRun) (e : Edge) :
    (Engine.apply_transition run e).predicates = run.predicates.clear_step := by
  unfold Engine.apply_transition
  by_cases hterm : (({ run with
      state := e.target,
      predicates := run.predicates.clear_step } : LifetimeRun)).is_terminal
  · simp only [if_pos hterm]
  · simp only [if_neg hterm]

theorem apply_transition_lifetime (run : LifetimeRun) (e : Edge) :
    (Engine.apply_transition run e).lifetime = run.lifetime := by
  unfold Engine.apply_transition
  by_cases hterm : (({ run with
      state := e.target,
      predicates := run.predicates.clear_step } : LifetimeRun)).is_terminal
  · simp only [if_pos hterm]
  · simp only [if_neg hterm]

theorem step_advanced_target {run : LifetimeRun} :
    (Engine.step run).1 = StepResult.ADVANCED →
      ∃ e ∈ run.lifetime.transitions_from run.state,
        Engine.predicates_satisfied run e = true ∧
          (Engine.step run).2 = Engine.apply_transition run e := by
  intro hadv
  unfold Engine.step at hadv ⊢
  by_cases hf : run.finished
  · rw [if_pos hf] at hadv; exact absurd hadv (by simp)
  · rw [if_neg hf] at hadv ⊢
    by_cases ht : run.is_terminal = true
    · rw [if_pos ht] at hadv; exact absurd hadv (by simp)
    · rw [if_neg ht] at hadv ⊢
      cases hfind : (run.lifetime.transitions_from run.state).find?
          (Engine.predicates_satisfied run) with
      | none => rw [hfind] at hadv; exact absurd hadv (by simp)
      | some e =>
        exact ⟨e, List.mem_of_find?_eq_some hfind, List.find?_some hfind, rfl⟩

theorem step_cases (run : LifetimeRun) :
    (Engine.step run).2.state = run.state ∨
      ∃ e ∈ run.lifetime.transitions_from run.state,
        (Engine.step run).2.state = e.target := by
  unfold Engine.step
  by_cases hf : run.finished
  · rw [if_pos hf]; exact Or.inl rfl
  · rw [if_neg hf]
    by_cases ht : run.is_terminal = true
    · rw [if_pos ht]; exact Or.inl rfl
    · rw [if_neg ht]
      cases hfind : (run.lifetime.transitions_from run.state).find?
          (Engine.predicates_satisfied run) with
      | none => exact Or.inl rfl
      | some e =>
        exact Or.inr ⟨e, List.mem_of_find?_eq_some hfind, apply_transition_state run e⟩

theorem step_preserves_lifetime (run : LifetimeRun) :
    (Engine.step run).2.lifetime = run.lifetime := by
  unfold Engine.step
  by_cases hf : run.finished
  · rw [if_pos hf]
  · rw [if_neg hf]
    by_cases ht : run.is_terminal = true
    · rw [if_pos ht]
    · rw [if_neg ht]
      cases hfind : (run.lifetime.transitions_from run.state).find?
          (Engine.predicates_satisfied run) with
      | none => rfl
      | some e => exact apply_transition_lifetime run e

theorem step_advanced_predicates {run : LifetimeRun} :
    (Engine.step run).1 = StepResult.ADVANCED →
      (Engine.step run).2.predicates = run.predicates.clear_step := by
  intro hadv
  obtain ⟨e, _, _, h2⟩ := step_advanced_target hadv
  rw [h2]
  exact apply_transition_predicates run e

theorem reaches_lifetime {d : LifetimeDefinition} {r : LifetimeRun} :
    Reaches d r → r.lifetime = d := by
  intro h
  induction h with
  | start => rfl
  | step _ ih => rw [step_preserves_lifetime]; exact ih
  | report name value scope _ ih => exact ih

/-! ### C1 -/

/-- C1 counterexample: on the section-8 definition, a run at `reviewing`
with `finished=false` holding only `review_ok=false` at RUN scope does NOT
get FINISHED back from a single `step` call — the claim's stated return
value is wrong at this input. -/
theorem c1_counterexample :
    ¬ (Engine.step reviewingRejectRun).1 = StepResult.FINISHED := by decide

/-- C1 amended: a single `step` on such a run returns ADVANCED (not
FINISHED), while setting the run's state to `rejected` and `finished` to
true; the immediately following `step` call is the one that returns
FINISHED. -/
theorem c1_amended :
    (Engine.step reviewingRejectRun).1 = StepResult.ADVANCED ∧
      (Engine.step reviewingRejectRun).2.state = "rejected" ∧
      (Engine.step reviewingRejectRun).2.finished = true ∧
      (Engine.step (Engine.step reviewingRejectRun).2).1 = StepResult.FINISHED := by
  decide

/-! ### C2 -/

/-- C2 counterexample: the compiler accepts `badDef`, whose initial state
`x` is not in its state set, and the run created from it immediately
violates `Run.state ∈ Run.definition.states`. -/
theorem c2_counterexample : ¬ (LifetimeRun.init badDef).state ∈ badDef.states := by
  decide

/-- C2 amended: for definitions that are structurally valid (initial state
and all transition targets inside `states`), every run created by `start`
and mutated only through `step` and fact reporting keeps its state inside
the definition's state set. -/
theorem c2_amended (d : LifetimeDefinition) (r : LifetimeRun)
    (hv : structurally_valid d) (hr : Reaches d r) : r.state ∈ d.states := by
  induction hr with
  | start => exact hv.1
  | step hreach ih =>
    rename_i r0
    rcases step_cases r0 with h1 | ⟨e, he, h1⟩
    · rw [h1]; exact ih
    · rw [h1]
      rw [reaches_lifetime hreach] at he
      obtain ⟨targets, hdg, t, ht, rfl⟩ := mem_transitions_from he
      exact hv.2 (r0.state, targets) (mem_of_dget hdg) t ht
  | report name value scope hreach ih => exact ih

/-- C2 witness: the amended invariant applied to the structurally valid
review definition after creation and one step. -/
theorem c2_witness :
    structurally_valid reviewDef ∧
      (Engine.step (LifetimeRun.init reviewDef)).2.state ∈ reviewDef.states :=
  ⟨by decide, c2_amended reviewDef _ (by decide) (Reaches.step Reaches.start)⟩

/-! ### C4 -/

/-- C4: stepping a run whose `finished` flag is already true returns
FINISHED and hands back the very same run — state, finished flag and both
fact scopes untouched — and therefore any number of repeated steps leaves
the run identical. -/
theorem c4_finished_step_noop (run : LifetimeRun) (h : run.finished = true) :
    Engine.step run = (StepResult.FINISHED, run) ∧ ∀ k, stepIter k run = run := by
  have hstep : Engine.step run = (StepResult.FINISHED, run) := by
    unfold Engine.step
    rw [if_pos h]
  refine ⟨hstep, ?_⟩
  intro k
  induction k with
  | zero => rfl
  | succ n ih =>
    show stepIter n (Engine.step run).2 = run
    rw [hstep]
    exact ih

/-- C4 witness: the idempotence theorem applied to a concrete finished run,
with three repeated steps. -/
theorem c4_witness :
    Engine.step finishedRun = (StepResult.FINISHED, finishedRun) ∧
      stepIter 3 finishedRun = finishedRun :=
  ⟨(c4_finished_step_noop finishedRun rfl).1, (c4_finished_step_noop finishedRun rfl).2 3⟩

/-! ### C5 -/

/-- C5: after `report(x, X, RUN)` then `report(x, Y, STEP)` on any store,
`resolve(x)` returns the step-scoped `Y`; and whenever a subsequent `step`
call applies a transition (result ADVANCED, which clears the step scope),
`resolve(x)` on the stepped run returns the run-scoped `X`. -/
theorem c5_fact_precedence (ps : PredicateStore) (x : String) (X Y : FactValue)
    (run : LifetimeRun)
    (hpred : run.predicates =
      ((ps.report x X (ScopeArg.member PredicateScope.RUN)).2.report x Y
        (ScopeArg.member PredicateScope.STEP)).2)
    (hadv : (Engine.step run).1 = StepResult.ADVANCED) :
    run.predicates.resolve x = some Y ∧
      (Engine.step run).2.predicates.resolve x = some X := by
  constructor
  · rw [hpred]
    unfold PredicateStore.report PredicateStore.resolve
    simp only
    rw [dget_dset_self]
  · rw [step_advanced_predicates hadv, hpred]
    unfold PredicateStore.report PredicateStore.clear_step PredicateStore.resolve
    simp only [dget]
    rw [dget_dset_self]

/-- C5 witness: the precedence theorem applied to a concrete run of the
two-state definition, with X = 1 and Y = 2. -/
theorem c5_witness :
    precedenceRun.predicates.resolve "x" = some (FactValue.integer 2) ∧
      (Engine.step precedenceRun).2.predicates.resolve "x" = some (FactValue.integer 1) :=
  c5_fact_precedence { step := [], run := [] } "x" (FactValue.integer 1)
    (FactValue.integer 2) precedenceRun rfl (by decide)

/-! ### Lemmas about the stall diagnostic -/

theorem classifyRequires_cons_none (ps : PredicateStore) {m : String} (w : FactValue)
    (rest : List (String × FactValue)) (h : ps.resolve m = none) :
    classifyRequires ps ((m, w) :: rest) =
      ((m, w) :: (classifyRequires ps rest).1, (classifyRequires ps rest).2) := by
  simp [classifyRequires, h]

theorem classifyRequires_cons_eq (ps : PredicateStore) {m : String} {w : FactValue}
    (rest : List (String × FactValue)) {actual : FactValue}
    (h : ps.resolve m = some actual) (hpy : pyEq actual w = true) :
    classifyRequires ps ((m, w) :: rest) = classifyRequires ps rest := by
  simp [classifyRequires, h, hpy]

theorem classifyRequires_cons_ne (ps : PredicateStore) {m : String} {w : FactValue}
    (rest : List (String × FactValue)) {actual : FactValue}
    (h : ps.resolve m = some actual) (hpy : pyEq actual w = false) :
    classifyRequires ps ((m, w) :: rest) =
      ((classifyRequires ps rest).1,
        (m, (some actual, w)) :: (classifyRequires ps rest).2) := by
  simp [classifyRequires, h, hpy]

theorem mem_classify_missing (ps : PredicateStore) (n : String) (v : FactValue) :
    ∀ req : List (String × FactValue),
      ((n, v) ∈ (classifyRequires ps req).1 ↔ ((n, v) ∈ req ∧ ps.resolve n = none)) := by
  intro req
  induction req with
  | nil => simp [classifyRequires]
  | cons nv rest ih =>
    obtain ⟨m, w⟩ := nv
    cases hres : ps.resolve m with
    | none =>
      rw [classifyRequires_cons_none ps w rest hres]
      simp only [List.mem_cons, ih]
      constructor
      · rintro (h | ⟨hmem, hre⟩)
        · injection h with hn hv
          subst hn
          subst hv
          exact ⟨Or.inl rfl, hres⟩
        · exact ⟨Or.inr hmem, hre⟩
      · rintro ⟨h | hmem, hre⟩
        · injection h with hn hv
          subst hn
          subst hv
          exact Or.inl rfl
        · exact Or.inr ⟨hmem, hre⟩
    | some actual =>
      have hfirst : (classifyRequires ps ((m, w) :: rest)).1 =
          (classifyRequires ps rest).1 := by
        by_cases hpy : pyEq actual w = true
        · rw [classifyRequires_cons_eq ps rest hres hpy]
        · rw [classifyRequires_cons_ne ps rest hres (Bool.eq_false_iff.mpr hpy)]
      rw [hfirst, ih]
      constructor
      · rintro ⟨hmem, hre⟩
        exact ⟨List.mem_cons_of_mem _ hmem, hre⟩
      · rintro ⟨hmem, hre⟩
        rcases List.mem_cons.mp hmem with h | h
        · injection h with hn hv
          subst hn
          rw [hre] at hres
          exact Option.noConfusion hres
        · exact ⟨h, hre⟩

theorem mem_classify_mismatched (ps : PredicateStore) (n : String) (a : Option FactValue)
    (v : FactValue) :
    ∀ req : List (String × FactValue),
      ((n, (a, v)) ∈ (classifyRequires ps req).2 ↔
        ∃ x, a = some x ∧ (n, v) ∈ req ∧ ps.resolve n = some x ∧ pyEq x v = false) := by
  intro req
  induction req with
  | nil => simp [classifyRequires]
  | cons nv rest ih =>
    obtain ⟨m, w⟩ := nv
    cases hres : ps.resolve m with
    | none =>
      rw [classifyRequires_cons_none ps w rest hres]
      simp only [ih]
      constructor
      · rintro ⟨x, hx, hmem, hre, hpy⟩
        exact ⟨x, hx, List.mem_cons_of_mem _ hmem, hre, hpy⟩
      · rintro ⟨x, hx, hmem, hre, hpy⟩
        rcases List.mem_cons.mp hmem with h | h
        · injection h with hn hv
          subst hn
          rw [hre] at hres
          exact Option.noConfusion hres
        · exact ⟨x, hx, h, hre, hpy⟩
    | some actual =>
      by_cases hpy : pyEq actual w = true
      · rw [classifyRequires_cons_eq ps rest hres hpy, ih]
        constructor
        · rintro ⟨x, hx, hmem, hre, hp⟩
          exact ⟨x, hx, List.mem_cons_of_mem _ hmem, hre, hp⟩
        · rintro ⟨x, hx, hmem, hre, hp⟩
          rcases List.mem_cons.mp hmem with h | h
          · injection h with hn hv
            subst hn
            subst hv
            rw [hre] at hres
            injection hres with hres
            subst hres
            rw [hpy] at hp
            exact Bool.noConfusion hp
          · exact ⟨x, hx, h, hre, hp⟩
      · rw [classifyRequires_cons_ne ps rest hres (Bool.eq_false_iff.mpr hpy)]
        simp only [List.mem_cons, ih]
        constructor
        · rintro (h | ⟨x, hx, hmem, hre, hp⟩)
          · injection h with hn hrest
            subst hn
            injection hrest with ha hv
            subst hv
            exact ⟨actual, ha.symm ▸ rfl, Or.inl rfl, hres,
              Bool.eq_false_iff.mpr hpy⟩
          · exact ⟨x, hx, Or.inr hmem, hre, hp⟩
        · rintro ⟨x, hx, h | hmem, hre, hp⟩
          · injection h with hn hv
            subst hn
            subst hv
            rw [hre] at hres
            injection hres with hres
            subst hx
            subst hres
            exact Or.inl rfl
          · exact Or.inr ⟨x, hx, hmem, hre, hp⟩

theorem classify_empty_eq_all (ps : PredicateStore) :
    ∀ req : List (String × FactValue),
      ((classifyRequires ps req).1.isEmpty && (classifyRequires ps req).2.isEmpty) =
        req.all fun nv =>
          match ps.resolve nv.1 with
          | some a => pyEq a nv.2
          | none => false := by
  intro req
  induction req with
  | nil => simp [classifyRequires]
  | cons nv rest ih =>
    obtain ⟨m, w⟩ := nv
    simp only [List.all_cons]
    cases hres : ps.resolve m with
    | none =>
      rw [classifyRequires_cons_none ps w rest hres]
      simp [hres]
    | some actual =>
      by_cases hpy : pyEq actual w = true
      · rw [classifyRequires_cons_eq ps rest hres hpy, ih]
        simp [hres, hpy]
      · rw [classifyRequires_cons_ne ps rest hres (Bool.eq_false_iff.mpr hpy)]
        simp [hres, Bool.eq_false_iff.mpr hpy]

theorem satisfied_eq_classify_empty (run : LifetimeRun) (t : Edge) :
    Engine.predicates_satisfied run t =
      ((classifyRequires run.predicates t.requires).1.isEmpty &&
        (classifyRequires run.predicates t.requires).2.isEmpty) :=
  (classify_empty_eq_all run.predicates t.requires).symm

theorem blockerFor_eq_none {ps : PredicateStore} {t : Edge} (run : LifetimeRun)
    (hps : run.predicates = ps) (hsat : Engine.predicates_satisfied run t = true) :
    blockerFor ps t = none := by
  subst hps
  unfold blockerFor
  rw [satisfied_eq_classify_empty] at hsat
  rw [if_pos hsat]

theorem blockerFor_eq_some {ps : PredicateStore} {t : Edge} (run : LifetimeRun)
    (hps : run.predicates = ps) (hsat : Engine.predicates_satisfied run t = false) :
    blockerFor ps t =
      some { transition := t
             missing := (classifyRequires ps t.requires).1
             mismatched := (classifyRequires ps t.requires).2 } := by
  subst hps
  unfold blockerFor
  rw [satisfied_eq_classify_empty] at hsat
  rw [if_neg (by rw [hsat]; exact Bool.false_ne_true)]

theorem mem_why_stalled (run : LifetimeRun) (b : TransitionBlocker) :
    b ∈ Engine.why_stalled run ↔
      b.transition ∈ run.lifetime.transitions_from run.state ∧
        Engine.predicates_satisfied run b.transition = false ∧
        b.missing = (classifyRequires run.predicates b.transition.requires).1 ∧
        b.mismatched = (classifyRequires run.predicates b.transition.requires).2 := by
  unfold Engine.why_stalled
  rw [List.mem_filterMap]
  constructor
  · rintro ⟨t, hmem, hf⟩
    cases hsat : Engine.predicates_satisfied run t with
    | true =>
      rw [blockerFor_eq_none run rfl hsat] at hf
      exact Option.noConfusion hf
    | false =>
      rw [blockerFor_eq_some run rfl hsat] at hf
      injection hf with hf
      subst hf
      exact ⟨hmem, hsat, rfl, rfl⟩
  · rintro ⟨hmem, hsat, hmiss, hmis⟩
    refine ⟨b.transition, hmem, ?_⟩
    rw [blockerFor_eq_some run rfl hsat, ← hmiss, ← hmis]

theorem why_stalled_map_transition (run : LifetimeRun) :
    (Engine.why_stalled run).map (fun b => b.transition) =
      (run.lifetime.transitions_from run.state).filter
        (fun t => ! Engine.predicates_satisfied run t) := by
  unfold Engine.why_stalled
  induction run.lifetime.transitions_from run.state with
  | nil => rfl
  | cons t rest ih =>
    rw [List.filterMap_cons, List.filter_cons]
    cases hsat : Engine.predicates_satisfied run t with
    | true =>
      rw [blockerFor_eq_none run rfl hsat, Bool.not_true, if_neg (by simp)]
      exact ih
    | false =>
      rw [blockerFor_eq_some run rfl hsat, Bool.not_false, if_pos rfl]
      simp only [List.map_cons]
      rw [ih]

/-! ### C3 -/

/-- C3 counterexample: the reported integer 1 DOES satisfy the required
boolean true (Python evaluates `1 == True` to `True`), so the claimed
"a value of a different kind never satisfies the requirement" is false —
the run even advances over the gated edge. -/
theorem c3_counterexample :
    Engine.predicates_satisfied coercionRun coercionEdge = true ∧
      (Engine.step coercionRun).1 = StepResult.ADVANCED := by decide

/-- C3 amended: fact comparison is Python equality over the closed value
kinds — strict within each kind and across kinds, with the single
exception that booleans and integers compare numerically (true = 1,
false = 0); every other cross-kind pair never satisfies a requirement, and
a present-but-unequal value (kind mismatch included) is reported by
`why_stalled` as an ordinary mismatched entry, never an error. -/
theorem c3_amended :
    (∀ v w : FactValue, pyEq v w = true ↔
        (v = w ∨
          ∃ b n, ((v = FactValue.boolean b ∧ w = FactValue.integer n) ∨
              (v = FactValue.integer n ∧ w = FactValue.boolean b)) ∧
            (if b then (1 : Int) else 0) = n)) ∧
      (∀ (run : LifetimeRun) (e : Edge) (n : String) (a v : FactValue),
        e ∈ run.lifetime.transitions_from run.state →
        (n, v) ∈ e.requires →
        run.predicates.resolve n = some a →
        pyEq a v = false →
        ∃ b ∈ Engine.why_stalled run,
          b.transition = e ∧ (n, (some a, v)) ∈ b.mismatched) := by
  constructor
  · intro v w
    cases v <;> cases w <;> simp [pyEq]
    exact eq_comm
  · intro run e n a v he hreq hres hpy
    have hmem : (n, (some a, v)) ∈ (classifyRequires run.predicates e.requires).2 :=
      (mem_classify_mismatched run.predicates n (some a) v e.requires).mpr
        ⟨a, rfl, hreq, hres, hpy⟩
    have hsat : Engine.predicates_satisfied run e = false := by
      rw [satisfied_eq_classify_empty]
      have : (classifyRequires run.predicates e.requires).2.isEmpty = false := by
        cases hc : (classifyRequires run.predicates e.requires).2 with
        | nil => rw [hc] at hmem; exact absurd hmem (List.not_mem_nil _)
        | cons q qs => rfl
      rw [this, Bool.and_false]
    refine ⟨⟨e, (classifyRequires run.predicates e.requires).1,
        (classifyRequires run.predicates e.requires).2⟩,
      (mem_why_stalled run _).mpr ⟨he, hsat, rfl, rfl⟩, rfl, hmem⟩

/-- C3 witness: a reported text value against a required boolean shows up
as a mismatched entry of a blocker, via the amended theorem at concrete
inputs. -/
theorem c3_witness :
    ∃ b ∈ Engine.why_stalled mismatchRun,
      b.transition = compiledEdge mismatchDef "s" "t" ∧
        ("ok", (some (FactValue.text "yes"), FactValue.boolean true)) ∈ b.mismatched :=
  c3_amended.2 mismatchRun (compiledEdge mismatchDef "s" "t") "ok"
    (FactValue.text "yes") (FactValue.boolean true) (by decide) (by decide) (by decide)
    (by decide)

/-! ### C7 -/

/-- C7: `why_stalled` is a pure function of the run (its type takes the run
and returns only a blocker list — nothing is mutated, nothing emitted).
Its blockers are exactly the outgoing edges with at least one unmet
requirement, in compiled order; a blocker's `missing` holds exactly the
required facts that resolve to absent (mapped to the required value) and
its `mismatched` exactly the facts resolving to a different value (mapped
to the (actual, required) pair); fully satisfied edges are omitted. -/
theorem c7_why_stalled_diagnostic (run : LifetimeRun) :
    ((Engine.why_stalled run).map (fun b => b.transition) =
        (run.lifetime.transitions_from run.state).filter
          (fun t => ! Engine.predicates_satisfied run t)) ∧
      ∀ b ∈ Engine.why_stalled run,
        (∀ n v, ((n, v) ∈ b.missing ↔
          ((n, v) ∈ b.transition.requires ∧ run.predicates.resolve n = none))) ∧
        (∀ n a v, ((n, (a, v)) ∈ b.mismatched ↔
          ∃ x, a = some x ∧ (n, v) ∈ b.transition.requires ∧
            run.predicates.resolve n = some x ∧ pyEq x v = false)) := by
  refine ⟨why_stalled_map_transition run, ?_⟩
  intro b hb
  obtain ⟨_, _, hmiss, hmis⟩ := (mem_why_stalled run b).mp hb
  constructor
  · intro n v
    rw [hmiss]
    exact mem_classify_missing run.predicates n v b.transition.requires
  · intro n a v
    rw [hmis]
    exact mem_classify_mismatched run.predicates n a v b.transition.requires

/-- C7 witness: the specification's stall example — an edge requiring
`a=true, b=false` with only `a=true` reported yields exactly one blocker
with `missing = {b: false}` and empty `mismatched`. -/
theorem c7_witness :
    (Engine.why_stalled stallRun).map (fun b => b.transition) =
        [compiledEdge stallDef "s" "t"] ∧
      Engine.why_stalled stallRun =
        [{ transition := compiledEdge stallDef "s" "t",
           missing := [("b", FactValue.boolean false)],
           mismatched := [] }] := by
  constructor
  · rw [(c7_why_stalled_diagnostic stallRun).1]
    decide
  · decide

/-! ### C6 -/

/-- C6: compiled per-source edge lists are sorted by priority descending
then target name ascending (fixed at construction: `transitions_from` is a
pure function of the definition, so the order is identical across calls);
and for a state with exactly two outgoing edges — necessarily of equal
priority — with distinct targets a and b, a lexically before b, whose
requirements are both satisfied, `step` applies the edge targeting a. -/
theorem c6_tie_break :
    (∀ (d : LifetimeDefinition) (s : String), (d.transitions_from s).Sorted edgeLE) ∧
      ∀ (d : LifetimeDefinition) (run : LifetimeRun) (a b : String)
        (targets : List String),
        run.lifetime = d → run.finished = false → run.is_terminal = false →
        dget run.state d.transitions = some targets →
        (targets = [a, b] ∨ targets = [b, a]) →
        pyStrLt a b →
        Engine.predicates_satisfied run (compiledEdge d run.state a) = true →
        Engine.predicates_satisfied run (compiledEdge d run.state b) = true →
        ((Engine.step run).1 = StepResult.ADVANCED ∧ (Engine.step run).2.state = a) := by
  constructor
  · intro d s
    unfold LifetimeDefinition.transitions_from
    cases hd : dget s d.transitions with
    | none => exact List.sorted_nil
    | some targets =>
      exact @List.sorted_insertionSort Edge edgeLE _ edgeLE_isTotal edgeLE_isTrans
        (targets.map (compiledEdge d s))
  · intro d run a b targets hlife hfin hterm hdget htargets hab hsatA hsatB
    have hLE : edgeLE (compiledEdge d run.state a) (compiledEdge d run.state b) :=
      Or.inr ⟨rfl, strLtb_asymm _ _ hab⟩
    have hNLE : ¬ edgeLE (compiledEdge d run.state b) (compiledEdge d run.state a) := by
      rintro (h | ⟨h1, h2⟩)
      · exact absurd h (lt_irrefl 0)
      · have h2x : strLtb a.data b.data = false := h2
        rw [hab] at h2x
        exact Bool.noConfusion h2x
    have hsorted : d.transitions_from run.state =
        [compiledEdge d run.state a, compiledEdge d run.state b] := by
      unfold LifetimeDefinition.transitions_from
      rw [hdget]
      rcases htargets with rfl | rfl
      · show List.orderedInsert edgeLE (compiledEdge d run.state a)
            (List.orderedInsert edgeLE (compiledEdge d run.state b) []) = _
        show List.orderedInsert edgeLE (compiledEdge d run.state a)
            [compiledEdge d run.state b] = _
        unfold List.orderedInsert
        rw [if_pos hLE]
      · show List.orderedInsert edgeLE (compiledEdge d run.state b)
            (List.orderedInsert edgeLE (compiledEdge d run.state a) []) = _
        show List.orderedInsert edgeLE (compiledEdge d run.state b)
            [compiledEdge d run.state a] = _
        unfold List.orderedInsert
        rw [if_neg hNLE]
        rfl
    have hstep : Engine.step run =
        (StepResult.ADVANCED, Engine.apply_transition run (compiledEdge d run.state a)) := by
      unfold Engine.step
      rw [if_neg (by rw [hfin]; exact Bool.false_ne_true),
        if_neg (by rw [hterm]; exact Bool.false_ne_true), hlife, hsorted,
        List.find?_cons_of_pos _ hsatA]
    rw [hstep]
    exact ⟨rfl, apply_transition_state run _⟩

/-- C6 witness: the tie-break theorem applied to a concrete definition
whose transitions list `s → {B, A}` in the order B before A, with both
edges unconditional; the step selects the edge targeting A. -/
theorem c6_witness :
    (Engine.step tieRun).1 = StepResult.ADVANCED ∧ (Engine.step tieRun).2.state = "A" :=
  c6_tie_break.2 tieDef tieRun "A" "B" ["B", "A"] rfl rfl (by decide) (by decide)
    (Or.inr rfl) (by decide) (by decide) (by decide)

/-! ### C8 -/

theorem dset_append_of_not_mem {κ α : Type} [DecidableEq κ] {k : κ} (v : α)
    {l1 : List (κ × α)} (l2 : List (κ × α)) (h : ∀ p ∈ l1, ¬ p.1 = k) :
    dset k v (l1 ++ l2) = l1 ++ dset k v l2 := by
  induction l1 with
  | nil => rfl
  | cons p rest ih =>
    have hih := ih fun q hq => h q (List.mem_cons_of_mem _ hq)
    show (if p.1 = k then (k, v) :: (rest ++ l2) else p :: dset k v (rest ++ l2)) =
      p :: (rest ++ dset k v l2)
    rw [if_neg (h p (List.Mem.head _)), hih]

theorem dpop_append_of_not_mem {κ α : Type} [DecidableEq κ] {k : κ}
    {l1 : List (κ × α)} (l2 : List (κ × α)) (h : ∀ p ∈ l1, ¬ p.1 = k) :
    dpop k (l1 ++ l2) = l1 ++ dpop k l2 := by
  induction l1 with
  | nil => rfl
  | cons p rest ih =>
    have hih := ih fun q hq => h q (List.mem_cons_of_mem _ hq)
    show (if p.1 = k then rest ++ l2 else p :: dpop k (rest ++ l2)) =
      p :: (rest ++ dpop k l2)
    rw [if_neg (h p (List.Mem.head _)), hih]

theorem stepAllAux_spec :
    ∀ (snap done : List (Nat × LifetimeRun)) (e : Engine),
      e.runs = done ++ snap →
      ((done ++ snap).map Prod.fst).Nodup →
      Engine.stepAllAux snap e =
        (snap.map (fun p => (p.1, (Engine.step p.2).1)),
          { runs := done ++ snap.filterMap fun p =>
              if (Engine.step p.2).1 = StepResult.FINISHED then none
              else some (p.1, (Engine.step p.2).2) }) := by
  intro snap
  induction snap with
  | nil =>
    intro done e he hnd
    simp only [Engine.stepAllAux, List.map_nil, List.filterMap_nil, List.append_nil]
    rw [List.append_nil] at he
    cases e with
    | mk runs =>
      simp only at he
      rw [he]
  | cons p rest ih =>
    obtain ⟨id, run⟩ := p
    intro done e he hnd
    have hmapfst : (done ++ (id, run) :: rest).map Prod.fst =
        done.map Prod.fst ++ id :: rest.map Prod.fst := by
      rw [List.map_append, List.map_cons]
    have hkey : ∀ q ∈ done, ¬ q.1 = id := by
      intro q hq hqid
      rw [hmapfst] at hnd
      have hdisj := List.disjoint_of_nodup_append hnd
      exact hdisj (hqid ▸ List.mem_map_of_mem Prod.fst hq) (List.Mem.head _)
    have hset : dset id (Engine.step run).2 e.runs =
        done ++ (id, (Engine.step run).2) :: rest := by
      rw [he, dset_append_of_not_mem _ _ hkey]
      simp [dset]
    simp only [Engine.stepAllAux]
    cases hres : (Engine.step run).1 with
    | FINISHED =>
      have hpop : dpop id (dset id (Engine.step run).2 e.runs) = done ++ rest := by
        rw [hset, dpop_append_of_not_mem _ hkey]
        simp [dpop]
      have hnd2 : ((done ++ rest).map Prod.fst).Nodup := by
        refine List.Nodup.sublist (List.Sublist.map Prod.fst ?_) hnd
        exact List.Sublist.append_left (List.sublist_cons_self _ _) done
      rw [if_pos rfl]
      have := ih done { runs := dpop id (dset id (Engine.step run).2 e.runs) }
        (by rw [hpop]) hnd2
      rw [this]
      simp [hres]
    | ADVANCED =>
      rw [if_neg (fun hcon => StepResult.noConfusion hcon)]
      have hnd2 : (((done ++ [(id, (Engine.step run).2)]) ++ rest).map Prod.fst).Nodup := by
        rw [List.append_assoc, List.singleton_append, List.map_append, List.map_cons]
        rw [hmapfst] at hnd
        exact hnd
      have := ih (done ++ [(id, (Engine.step run).2)])
        { runs := dset id (Engine.step run).2 e.runs }
        (by rw [hset, List.append_assoc]; rfl) hnd2
      rw [this]
      simp [hres]
    | STALLED =>
      rw [if_neg (fun hcon => StepResult.noConfusion hcon)]
      have hnd2 : (((done ++ [(id, (Engine.step run).2)]) ++ rest).map Prod.fst).Nodup := by
        rw [List.append_assoc, List.singleton_append, List.map_append, List.map_cons]
        rw [hmapfst] at hnd
        exact hnd
      have := ih (done ++ [(id, (Engine.step run).2)])
        { runs := dset id (Engine.step run).2 e.runs }
        (by rw [hset, List.append_assoc]; rfl) hnd2
      rw [this]
      simp [hres]

/-- C8: `step_all` works off the snapshot of the run collection taken at
call start — the returned mapping is exactly one (id, result) pair per
snapshotted run, each stepped once, computed from the snapshot alone — and
the surviving collection keeps (in order, with their stepped state) exactly
the runs whose result is not FINISHED.  Stepping a run never touches the
collection itself in this model, so nothing a step does can change which
runs the pass processes. -/
theorem c8_step_all (e : Engine) (h : (e.runs.map Prod.fst).Nodup) :
    (e.step_all).1 = e.runs.map (fun p => (p.1, (Engine.step p.2).1)) ∧
      (e.step_all).2.runs = e.runs.filterMap fun p =>
        if (Engine.step p.2).1 = StepResult.FINISHED then none
        else some (p.1, (Engine.step p.2).2) := by
  have hs := stepAllAux_spec e.runs [] e rfl (by simpa using h)
  unfold Engine.step_all
  rw [hs]
  exact ⟨rfl, by simp⟩

/-- C8 witness: an engine holding an already-finished run (id 1) and a
stalling run (id 2): the pass returns both results and removes exactly the
finished run. -/
theorem c8_witness :
    (pairEngine.step_all).1 = [(1, StepResult.FINISHED), (2, StepResult.STALLED)] ∧
      (pairEngine.step_all).2.runs = [(2, stallRun)] := by
  have h := c8_step_all pairEngine (by decide)
  constructor
  · rw [h.1]
    decide
  · rw [h.2]
    decide

/-! ### C9 -/

/-- C9: reporting a fact with a scope value that is neither STEP nor RUN
surfaces the `ValueError` to the caller immediately and writes nothing:
the result pairs the error message with the store unchanged in both its
step and run mappings. -/
theorem c9_invalid_scope (ps : PredicateStore) (name : String) (value : FactValue)
    (r : String) :
    ps.report name value (ScopeArg.invalid r) =
      (some ("Unknown predicate scope: " ++ r), ps) := rfl

/-! ### C10 -/

/-- C10: every edge produced by compiling a definition has priority exactly
0 — the constructor offers no other value — so each compiled per-source
list is ordered by target name alone (ascending). -/
theorem c10_priority_zero (d : LifetimeDefinition) (s : String) :
    (∀ e ∈ d.transitions_from s, e.priority = 0) ∧
      (d.transitions_from s).Sorted fun e1 e2 => pyStrLe e1.target e2.target := by
  have hzero : ∀ e ∈ d.transitions_from s, e.priority = 0 := by
    intro e he
    obtain ⟨targets, _, t, _, rfl⟩ := mem_transitions_from he
    rfl
  refine ⟨hzero, ?_⟩
  have hsorted : (d.transitions_from s).Sorted edgeLE := by
    unfold LifetimeDefinition.transitions_from
    cases hd : dget s d.transitions with
    | none => exact List.sorted_nil
    | some targets =>
      exact @List.sorted_insertionSort Edge edgeLE _ edgeLE_isTotal edgeLE_isTrans
        (targets.map (compiledEdge d s))
  refine List.Pairwise.imp_of_mem ?_ hsorted
  intro e1 e2 h1 h2 hle
  rcases hle with h | ⟨_, h⟩
  · rw [hzero e1 h1, hzero e2 h2] at h
    exact absurd h (lt_irrefl 0)
  · exact h

/-- C10 witness: a concrete compiled edge of the review definition has
priority 0, via the general theorem. -/
theorem c10_witness : (compiledEdge reviewDef "reviewing" "approved").priority = 0 :=
  (c10_priority_zero reviewDef "reviewing").1 _ (by decide)
